import Mathlib

/-!
Shallow embedding of `src/backend/internal/proxy-host.js` from
nginx-proxy-manager: the orchestrator for proxy-host lifecycle operations
(create, update, get, delete, getAll, getCount).

External collaborators whose code is not part of this repository slice
(`internal/host.js`, `internal/nginx.js`, `internal/audit-log.js`, the
Objection model and the authorization gate) are modelled from the spec's
collaborator contracts; each such definition carries a doc comment saying
so.  JS promise chains become explicit sequencing with `Except`; the
mutable database, the audit log, and the trace of external calls become an
explicit `Sys` state threaded through each operation; the JS possibility
that a resolved value is nullish is modelled with `Option`.
-/

namespace ProxyHost

/-- `meta` is an open string-keyed mapping (a JS object); modelled as an
association list of key/value pairs. -/
abbrev Meta := List (String × String)

/-- JS property lookup on a meta object. -/
def metaLookup (m : Meta) (k : String) : Option String :=
  (m.find? (fun kv => kv.1 = k)).map (fun kv => kv.2)

/-- `_.assign({}, a, b)` from lodash: the result has the keys of `a` and
`b`; on a key present in both, the value from `b` (the later source) wins. -/
def assignMeta (a b : Meta) : Meta :=
  a.map (fun kv =>
    match metaLookup b kv.1 with
    | some v => (kv.1, v)
    | none => kv)
  ++ b.filter (fun kv => (metaLookup a kv.1).isNone)

/-- A persisted proxy-host row (the `proxy_host` table). -/
structure Row where
  id : Nat
  owner_user_id : Nat
  domain_names : List String
  certificate_id : Option Nat
  access_list_id : Option Nat
  meta : Meta
  is_deleted : Bool
deriving DecidableEq, Repr

/-- A row as returned to callers: `_.omit(row, ['is_deleted'])` — every
field of `Row` except the soft-delete flag.  (Association expansion via
`eager`/custom `omit` lists affect serialization of associations outside
these scalar fields and are not part of the row shape.) -/
structure RowOut where
  id : Nat
  owner_user_id : Nat
  domain_names : List String
  certificate_id : Option Nat
  access_list_id : Option Nat
  meta : Meta
deriving DecidableEq, Repr

/-- Drop the `is_deleted` field (the `omissions()` list). -/
def toRowOut (r : Row) : RowOut :=
  { id := r.id
    owner_user_id := r.owner_user_id
    domain_names := r.domain_names
    certificate_id := r.certificate_id
    access_list_id := r.access_list_id
    meta := r.meta }

/-- Modelled from the spec: a record in the system-wide hostname registry
(`internal/host.js` is not in this slice).  Hosts of every type — proxy,
redirection, dead — claim domain names. -/
structure HostRecord where
  hostType : String
  id : Nat
  domain_names : List String
  is_deleted : Bool
deriving DecidableEq, Repr

/-- Result of a hostname-registry lookup. -/
structure CheckResult where
  hostname : String
  is_taken : Bool
deriving DecidableEq, Repr

/-- Modelled from the spec: `HostnameRegistry.isHostnameTaken(domain,
hostTypeFilter?, excludeId?) → {hostname, is_taken}` — the name is taken
when some active record of any host type claims it, except the single
record matched by both the type filter and the exclusion id
(`internal/host.js` is not in this slice). -/
def isHostnameTaken (registry : List HostRecord) (domain : String)
    (hostTypeFilter : Option String) (excludeId : Option Nat) : CheckResult :=
  { hostname := domain
    is_taken := registry.any (fun h =>
      !h.is_deleted && h.domain_names.contains domain &&
        !(hostTypeFilter == some h.hostType && excludeId == some h.id)) }

/-- The error taxonomy.  Collaborator failures keep their own identity and
propagate uncaught. -/
inductive Err where
  | validation (msg : String)
  | internalValidation (msg : String)
  | itemNotFound (id : Option Nat)
  | permission (msg : String)
  | configureError
  | deleteConfigError
  | reloadError
  | auditError
  | typeErr
deriving DecidableEq, Repr

/-- The authorization result: `access.can` resolves with an object whose
`permission_visibility` scopes subsequent queries. -/
structure AccessData where
  permission_visibility : String
deriving DecidableEq, Repr

/-- Trace of calls made to external collaborators. -/
inductive Event where
  | configure (id : Nat)
  | deleteConfig (id : Nat)
  | reload
  | auditAdd
deriving DecidableEq, Repr

/-- The caller-supplied input object of `create` (a mutable JS object;
fields the caller may omit are `Option`). -/
structure CreateData where
  domain_names : List String
  owner_user_id : Option Nat
  certificate_id : Option Nat
  access_list_id : Option Nat
  meta : Option Meta
deriving DecidableEq, Repr

/-- The caller-supplied input object of `update`. -/
structure UpdateData where
  id : Nat
  domain_names : Option (List String)
  certificate_id : Option Nat
  access_list_id : Option Nat
  meta : Option Meta
deriving DecidableEq, Repr

/-- The input object of `get`: `data.id` may be absent (`data` itself may
even be undefined, which behaves as `{}`). -/
structure GetData where
  id : Option Nat
  expand : Option (List String)
  omitFields : Option (List String)
deriving DecidableEq, Repr

/-- The input object of `delete`. -/
structure DeleteData where
  id : Nat
  reason : Option String
deriving DecidableEq, Repr

/-- The `meta` payload of an audit entry: `create`/`update` pass the whole
input object, `delete` passes the prior row with `is_deleted` omitted. -/
inductive AuditMeta where
  | createData (d : CreateData)
  | updateData (d : UpdateData)
  | rowData (r : RowOut)
deriving DecidableEq, Repr

/-- One audit record, as handed to `internalAuditLog.add`. -/
structure AuditEntry where
  action : String
  object_type : String
  object_id : Nat
  meta : AuditMeta
deriving DecidableEq, Repr

/-- Behavior of the external collaborators during one run: the outcome of
each `access.can` permission check, the actor identity carried by the
access token, the hostname-registry snapshot, whether each ConfigPublisher
and AuditRecorder call succeeds, the meta annotations configuration
publishing adds to a row, and the internal-only keys `cleanMeta` strips.
Modelled from the spec, `AuthorizationGate.can` either resolves with a
`permission_visibility` scope or fails with an AuthorizationError (carried
here as the denial message). -/
structure Env where
  actorId : Nat
  canCreate : Except String AccessData
  canUpdate : Except String AccessData
  canGet : Except String AccessData
  canDelete : Except String AccessData
  canList : Except String AccessData
  registry : List HostRecord
  configureOk : Bool
  configureMeta : Meta
  deleteConfigOk : Bool
  reloadOk : Bool
  auditOk : Bool
  internalKeys : List String

/-- Mutable system state: the `proxy_host` table, the audit log, and the
trace of external calls. -/
structure Sys where
  db : List Row
  auditLog : List AuditEntry
  events : List Event
deriving DecidableEq, Repr

/-- Modelled from the spec: `MetaSanitizer.clean(meta)` strips
internal-only keys before external exposure (`internal/host.js` is not in
this slice). -/
def cleanMeta (env : Env) (m : Meta) : Meta :=
  m.filter (fun kv => !env.internalKeys.contains kv.1)

/-- Modelled from the spec: `AuditRecorder.add` appends an immutable
action record; its failure propagates (`internal/audit-log.js` is not in
this slice). -/
def auditAdd (env : Env) (e : AuditEntry) (s : Sys) : Except Err Unit × Sys :=
  let s' := { s with events := s.events ++ [Event.auditAdd] }
  if env.auditOk then
    (Except.ok (), { s' with auditLog := s'.auditLog ++ [e] })
  else
    (Except.error Err.auditError, s')

/-- The row-selection predicate of `get`'s query: active, matching id,
and — unless the visibility scope is "all" — owned by the actor. -/
def getMatches (env : Env) (ad : AccessData) (idq : Option Nat) (r : Row) : Bool :=
  !r.is_deleted && some r.id == idq &&
    (ad.permission_visibility == "all" || r.owner_user_id == env.actorId)

/-- `internalProxyHost.get`: authorize `proxy_hosts:get`, query the first
active visible row with the requested id, throw `ItemNotFoundError` when
the query resolves nullish, otherwise clean the meta and return the row
with `is_deleted` omitted.  The resolved value is `Option RowOut` because
a JS promise may in principle resolve with a nullish value; `get` makes no
state change. -/
def get (env : Env) (data : GetData) (s : Sys) : Except Err (Option RowOut) :=
  match env.canGet with
  | Except.error m => Except.error (Err.permission m)
  | Except.ok ad =>
    match s.db.find? (getMatches env ad data.id) with
    | some row =>
      Except.ok (some { toRowOut row with meta := cleanMeta env row.meta })
    | none => Except.error (Err.itemNotFound data.id)

/-- Auto-increment id assignment of `insertAndFetch`. -/
def nextId (db : List Row) : Nat :=
  db.foldr (fun r acc => max r.id acc) 0 + 1

/-- The body of create's/update's uniqueness-check continuation:
`check_results.map(...)` throws `ValidationError(hostname + ' is already
in use')` at the first result with `is_taken`. -/
def checkResults (results : List CheckResult) : Except Err Unit :=
  match results.find? (fun r => r.is_taken) with
  | some r => Except.error (Err.validation (r.hostname ++ " is already in use"))
  | none => Except.ok ()

/-- `internalProxyHost.create`: authorize `proxy_hosts:create`; check every
requested domain name against the registry and report the first conflict;
set `data.owner_user_id` from the access token (mutating the caller's
object); insert and fetch the row; configure nginx (which may annotate the
row's meta); re-fetch through `get` with `owner` expanded; merge the
fetched row's meta over the caller's meta into `data.meta` (again mutating
the caller's object); add the audit entry carrying `data`; return the
fetched row.  The JS `data` object is mutated in place, so the final state
of the caller's object is returned alongside the result and the system
state. -/
def create (env : Env) (data : CreateData) (s : Sys) :
    Except Err RowOut × Sys × CreateData :=
  match env.canCreate with
  | Except.error m => (Except.error (Err.permission m), s, data)
  | Except.ok _ =>
    match checkResults (data.domain_names.map
        (fun n => isHostnameTaken env.registry n none none)) with
    | Except.error e => (Except.error e, s, data)
    | Except.ok _ =>
      -- data.owner_user_id = access.token.get('attrs').id
      let data1 := { data with owner_user_id := some env.actorId }
      let newId := nextId s.db
      let inserted : Row :=
        { id := newId
          owner_user_id := env.actorId
          domain_names := data1.domain_names
          certificate_id := data1.certificate_id
          access_list_id := data1.access_list_id
          meta := data1.meta.getD []
          is_deleted := false }
      let s1 := { s with db := s.db ++ [inserted] }
      -- internalNginx.configure(proxyHostModel, 'proxy_host', row):
      -- modelled from the spec, ConfigPublisher.configure may annotate the
      -- row's meta (annotations `env.configureMeta`) and may fail.
      let s2 := { s1 with events := s1.events ++ [Event.configure newId] }
      if env.configureOk then
        let s3 := { s2 with db := s2.db.map (fun r =>
          if r.id = newId then { r with meta := assignMeta r.meta env.configureMeta }
          else r) }
        match get env { id := some newId, expand := some ["owner"], omitFields := none } s3 with
        | Except.error e => (Except.error e, s3, data1)
        | Except.ok none =>
          -- unreachable: JS would fail reading `.meta` of a nullish row
          (Except.error Err.typeErr, s3, data1)
        | Except.ok (some fetched) =>
          -- data.meta = _.assign({}, data.meta || {}, row.meta)
          let data2 := { data1 with
            meta := some (assignMeta (data1.meta.getD []) fetched.meta) }
          let entry : AuditEntry :=
            { action := "created"
              object_type := "proxy-host"
              object_id := fetched.id
              meta := AuditMeta.createData data2 }
          match auditAdd env entry s3 with
          | (Except.ok _, s4) => (Except.ok fetched, s4, data2)
          | (Except.error e, s4) => (Except.error e, s4, data2)
      else (Except.error Err.configureError, s2, data1)

/-- `patchAndFetchById`'s patch of one row: each field present in the
patch payload replaces the stored field.  (`data.id` is also in the
payload, but this point is only reached when it equals the row's id.) -/
def applyPatch (d : UpdateData) (r : Row) : Row :=
  { r with
    domain_names := d.domain_names.getD r.domain_names
    certificate_id := match d.certificate_id with
      | some v => some v
      | none => r.certificate_id
    access_list_id := match d.access_list_id with
      | some v => some v
      | none => r.access_list_id
    meta := d.meta.getD r.meta }

/-- The continuation of `update` after the current row has been fetched
through `get`: the defensive id comparison, the patch, the meta cleaning of
the saved row, and the audit entry. -/
def updateAfterGet (env : Env) (data : UpdateData) (row : RowOut) (s : Sys) :
    Except Err RowOut × Sys :=
  if row.id ≠ data.id then
    (Except.error (Err.internalValidation
      ("Proxy Host could not be updated, IDs do not match: "
        ++ toString row.id ++ " !== " ++ toString data.id)), s)
  else
    let db' := s.db.map (fun r => if r.id = row.id then applyPatch data r else r)
    match db'.find? (fun r => r.id == row.id) with
    | none => (Except.error (Err.itemNotFound none), { s with db := db' })
    | some saved =>
      let savedOut := { toRowOut saved with meta := cleanMeta env saved.meta }
      let entry : AuditEntry :=
        { action := "updated"
          object_type := "proxy-host"
          object_id := row.id
          meta := AuditMeta.updateData data }
      match auditAdd env entry { s with db := db' } with
      | (Except.ok _, s2) => (Except.ok savedOut, s2)
      | (Except.error e, s2) => (Except.error e, s2)

/-- `internalProxyHost.update`: authorize `proxy_hosts:update`; when
`data.domain_names` is present, check each name against the registry
excluding the proxy record `data.id`; fetch the current row through `get`;
then run `updateAfterGet`. -/
def update (env : Env) (data : UpdateData) (s : Sys) : Except Err RowOut × Sys :=
  match env.canUpdate with
  | Except.error m => (Except.error (Err.permission m), s)
  | Except.ok _ =>
    let checked :=
      match data.domain_names with
      | some names =>
        checkResults (names.map
          (fun n => isHostnameTaken env.registry n (some "proxy") (some data.id)))
      | none => Except.ok ()
    match checked with
    | Except.error e => (Except.error e, s)
    | Except.ok _ =>
      match get env { id := some data.id, expand := none, omitFields := none } s with
      | Except.error e => (Except.error e, s)
      | Except.ok none =>
        -- unreachable: JS would fail reading `.id` of a nullish row
        (Except.error Err.typeErr, s)
      | Except.ok (some row) => updateAfterGet env data row s

/-- `internalProxyHost.delete`: authorize `proxy_hosts:delete`; fetch the
row through `get`; throw `ItemNotFoundError` on a falsy row; patch
`is_deleted = 1`; delete the nginx configuration, and only once that
succeeded reload nginx; audit the prior row state; resolve `true`. -/
def delete (env : Env) (data : DeleteData) (s : Sys) : Except Err Bool × Sys :=
  match env.canDelete with
  | Except.error m => (Except.error (Err.permission m), s)
  | Except.ok _ =>
    match get env { id := some data.id, expand := none, omitFields := none } s with
    | Except.error e => (Except.error e, s)
    | Except.ok none =>
      -- `if (!row) throw new error.ItemNotFoundError(data.id)`
      (Except.error (Err.itemNotFound (some data.id)), s)
    | Except.ok (some row) =>
      let db' := s.db.map (fun r =>
        if r.id = row.id then { r with is_deleted := true } else r)
      -- internalNginx.deleteConfig('proxy_host', row): modelled from the
      -- spec, ConfigPublisher.deleteConfig may fail.
      let s1 := { s with db := db', events := s.events ++ [Event.deleteConfig row.id] }
      if env.deleteConfigOk then
        -- internalNginx.reload(): modelled from the spec, may fail.
        let s2 := { s1 with events := s1.events ++ [Event.reload] }
        if env.reloadOk then
          let entry : AuditEntry :=
            { action := "deleted"
              object_type := "proxy-host"
              object_id := row.id
              meta := AuditMeta.rowData { row with meta := cleanMeta env row.meta } }
          match auditAdd env entry s2 with
          | (Except.ok _, s3) => (Except.ok true, s3)
          | (Except.error e, s3) => (Except.error e, s3)
        else (Except.error Err.reloadError, s2)
      else (Except.error Err.deleteConfigError, s1)

/-- The serialized `domain_names` column value the database orders and
searches on. -/
def domainKey (r : Row) : String :=
  String.intercalate "," r.domain_names

/-- Whether `q` occurs as a contiguous substring: the SQL
`like '%' + q + '%'` match on the serialized column. -/
def charsPref (q s : List Char) : Bool :=
  match q, s with
  | [], _ => true
  | _ :: _, [] => false
  | a :: as, b :: bs => a = b && charsPref as bs

def charsSub (q s : List Char) : Bool :=
  match s with
  | [] => charsPref q []
  | _ :: rest => charsPref q s || charsSub q rest

def strHasSub (s q : String) : Bool :=
  charsSub q.toList s.toList

/-- SQL `GROUP BY id`: one row per id, keeping the first occurrence. -/
def dedupByIdAux : List Nat → List Row → List Row
  | _, [] => []
  | seen, r :: rs =>
    if seen.contains r.id then dedupByIdAux seen rs
    else r :: dedupByIdAux (r.id :: seen) rs

def dedupById (l : List Row) : List Row :=
  dedupByIdAux [] l

/-- Codepoint-wise lexicographic string comparison — the database's
ascending ordering on the serialized text column. -/
def charsLe : List Char → List Char → Bool
  | [], _ => true
  | _ :: _, [] => false
  | a :: as, b :: bs =>
    if a.toNat < b.toNat then true
    else if b.toNat < a.toNat then false
    else charsLe as bs

def strLe (a b : String) : Bool :=
  charsLe a.toList b.toList

/-- Insertion into a list sorted by the serialized domain-name key. -/
def insertRow (r : Row) : List Row → List Row
  | [] => [r]
  | x :: xs =>
    if strLe (domainKey r) (domainKey x) then r :: x :: xs else x :: insertRow r xs

/-- `ORDER BY domain_names ASC`. -/
def sortRows : List Row → List Row
  | [] => []
  | x :: xs => insertRow x (sortRows xs)

/-- The row set produced by getAll's query: active rows, visibility-scoped,
optionally filtered by substring search, deduplicated by id, ordered by the
serialized domain-name column ascending. -/
def getAllQuery (env : Env) (ad : AccessData) (search_query : Option String)
    (s : Sys) : List Row :=
  sortRows (dedupById (s.db.filter (fun r =>
    !r.is_deleted
      && (ad.permission_visibility == "all" || r.owner_user_id == env.actorId)
      && (match search_query with
          | some q => strHasSub (domainKey r) q
          | none => true))))

/-- `internalProxyHost.getAll`: authorize `proxy_hosts:list`, run the
query, clean each row's meta, return the rows with `is_deleted` omitted;
no state change. -/
def getAll (env : Env) (expand : Option (List String))
    (search_query : Option String) (s : Sys) : Except Err (List RowOut) :=
  match env.canList with
  | Except.error m => Except.error (Err.permission m)
  | Except.ok ad =>
    Except.ok ((getAllQuery env ad search_query s).map
      (fun r => { toRowOut r with meta := cleanMeta env r.meta }))

/-- The row set getCount's query counts: active rows, scoped to `user_id`
unless the visibility is "all". -/
def getCountQuery (user_id : Nat) (visibility : String) (s : Sys) : List Row :=
  s.db.filter (fun r =>
    !r.is_deleted && (visibility == "all" || r.owner_user_id == user_id))

/-- `internalProxyHost.getCount`: no authorization gate; count the scoped
active rows. -/
def getCount (user_id : Nat) (visibility : String) (s : Sys) : Nat :=
  (getCountQuery user_id visibility s).length

/-! ### Concrete fixtures used by the witness theorems -/

def adAll : AccessData := { permission_visibility := "all" }

def adUser : AccessData := { permission_visibility := "user" }

def rowA : Row :=
  { id := 5, owner_user_id := 1, domain_names := ["a.example.com"]
    certificate_id := none, access_list_id := none
    meta := [("k", "old")], is_deleted := false }

def rowB : Row :=
  { id := 6, owner_user_id := 2, domain_names := ["b.example.com"]
    certificate_id := none, access_list_id := none
    meta := [], is_deleted := false }

def rowGone : Row :=
  { id := 7, owner_user_id := 1, domain_names := ["c.example.com"]
    certificate_id := none, access_list_id := none
    meta := [], is_deleted := true }

/-- Registry view matching `sysW`: the proxy records, plus an active
redirection host claiming `r.example.com`. -/
def regW : List HostRecord :=
  [ { hostType := "proxy", id := 5, domain_names := ["a.example.com"], is_deleted := false }
  , { hostType := "proxy", id := 6, domain_names := ["b.example.com"], is_deleted := false }
  , { hostType := "redirection", id := 9, domain_names := ["r.example.com"], is_deleted := false } ]

def envW : Env :=
  { actorId := 1
    canCreate := Except.ok adAll, canUpdate := Except.ok adAll
    canGet := Except.ok adAll, canDelete := Except.ok adAll
    canList := Except.ok adAll
    registry := regW
    configureOk := true, configureMeta := [("k", "pub"), ("online", "yes")]
    deleteConfigOk := true, reloadOk := true, auditOk := true
    internalKeys := [] }

/-- Same collaborators, but every visibility scope is "user". -/
def envUser : Env :=
  { envW with
    canCreate := Except.ok adUser, canUpdate := Except.ok adUser
    canGet := Except.ok adUser, canDelete := Except.ok adUser
    canList := Except.ok adUser }

def sysW : Sys := { db := [rowA, rowB, rowGone], auditLog := [], events := [] }

/-- A create payload whose meta collides with the publisher's annotations
on key "k". -/
def dataNew : CreateData :=
  { domain_names := ["new.example.com"], owner_user_id := none
    certificate_id := none, access_list_id := none
    meta := some [("k", "caller"), ("extra", "1")] }

/-- The row `create envW dataNew sysW` returns. -/
def rowNew : RowOut :=
  { id := 8, owner_user_id := 1, domain_names := ["new.example.com"]
    certificate_id := none, access_list_id := none
    meta := [("k", "pub"), ("extra", "1"), ("online", "yes")] }

/-! ### Helper lemmas -/

theorem auditAdd_eq (env : Env) (e : AuditEntry) (s : Sys) :
    auditAdd env e s =
      if env.auditOk then
        (Except.ok (), { s with events := s.events ++ [Event.auditAdd]
                                auditLog := s.auditLog ++ [e] })
      else
        (Except.error Err.auditError,
          { s with events := s.events ++ [Event.auditAdd] }) := by
  unfold auditAdd
  split <;> rfl

/-- Whatever `auditAdd` returns, it is never a ValidationError or an
InternalValidationError. -/
theorem auditAdd_fst_cases (env : Env) (e : AuditEntry) (s : Sys) :
    (auditAdd env e s).1 = Except.ok ()
      ∨ (auditAdd env e s).1 = Except.error Err.auditError := by
  rw [auditAdd_eq]
  split <;> simp

/-! ### C10 -/

/-- C10: In delete(), the falsy-row check that would throw
ItemNotFoundError is unreachable: for every input, the preceding get()
call either resolves with a truthy (`some`) row or itself rejects with
ItemNotFoundError, never resolving with a nullish value — so delete()'s
own not-found branch (which fires exactly on `Except.ok none`) is dead
code. -/
theorem get_never_resolves_nullish (env : Env) (data : GetData) (s : Sys) :
    get env data s ≠ Except.ok none := by
  unfold get
  cases env.canGet with
  | error m => simp
  | ok ad =>
    cases h : s.db.find? (getMatches env ad data.id) <;> simp [h]

/-- Witness for C10 at a concrete input: get() on id 5 in `sysW` does not
resolve nullish. -/
theorem get_never_resolves_nullish_witness :
    get envW { id := some 5, expand := none, omitFields := none } sysW ≠
      Except.ok none :=
  get_never_resolves_nullish envW
    { id := some 5, expand := none, omitFields := none } sysW

/-! ### C8 -/

/-- C8: In update(), if the row fetched via get() has an id different from
`input.id`, the operation fails with an InternalValidationError and no
patch is applied (the system state is returned unchanged); if the ids are
equal, this error branch is never taken — the result is never an
InternalValidationError. -/
theorem update_id_guard (env : Env) (data : UpdateData) (row : RowOut) (s : Sys) :
    (row.id ≠ data.id →
      updateAfterGet env data row s =
        (Except.error (Err.internalValidation
          ("Proxy Host could not be updated, IDs do not match: "
            ++ toString row.id ++ " !== " ++ toString data.id)), s))
    ∧ (row.id = data.id →
        ∀ m, (updateAfterGet env data row s).1
            ≠ Except.error (Err.internalValidation m)) := by
  constructor
  · intro hne
    unfold updateAfterGet
    rw [if_pos hne]
  · intro heq m
    simp only [updateAfterGet]
    rw [if_neg (by simp [heq])]
    split
    · simp
    · rcases auditAdd_fst_cases env
        { action := "updated", object_type := "proxy-host"
          object_id := row.id, meta := AuditMeta.updateData data }
        { s with db := s.db.map (fun r => if r.id = row.id then applyPatch data r else r) }
        with h | h
      all_goals
        rcases ha : auditAdd env
          { action := "updated", object_type := "proxy-host"
            object_id := row.id, meta := AuditMeta.updateData data }
          { s with db := s.db.map (fun r => if r.id = row.id then applyPatch data r else r) }
          with ⟨res, s2⟩
        rw [ha] at h
        cases res <;> simp_all

/-- Witness for C8: with fetched row id 5 and requested id 6, the
operation fails with the InternalValidationError and leaves the state
unchanged. -/
theorem update_id_guard_witness :
    updateAfterGet envW
        { id := 6, domain_names := none, certificate_id := none
          access_list_id := none, meta := none } (toRowOut rowA) sysW =
      (Except.error (Err.internalValidation
        ("Proxy Host could not be updated, IDs do not match: "
          ++ toString (toRowOut rowA).id ++ " !== " ++ toString (6 : Nat))), sysW) :=
  (update_id_guard envW
    { id := 6, domain_names := none, certificate_id := none
      access_list_id := none, meta := none } (toRowOut rowA) sysW).1 (by decide)

/-! ### C4 -/

/-- C4: For every create(actor, input) whose domain_names contain at least
one taken name, after all registry checks resolve, create() fails with a
ValidationError that names exactly the first taken name in the original
request order of input.domain_names (and at most one conflict is reported
per call — the result is that single error, with no state change and no
mutation of the input). -/
theorem create_reports_first_conflict (env : Env) (data : CreateData) (s : Sys)
    (ad : AccessData) (name : String)
    (hc : env.canCreate = Except.ok ad)
    (hf : data.domain_names.find?
      (fun n => (isHostnameTaken env.registry n none none).is_taken) = some name) :
    create env data s =
      (Except.error (Err.validation (name ++ " is already in use")), s, data) := by
  have hmap : (data.domain_names.map
      (fun n => isHostnameTaken env.registry n none none)).find?
        (fun r => r.is_taken) =
      some (isHostnameTaken env.registry name none none) := by
    rw [List.find?_map]
    have : (fun (r : CheckResult) => r.is_taken) ∘
        (fun n => isHostnameTaken env.registry n none none) =
        (fun n => (isHostnameTaken env.registry n none none).is_taken) := rfl
    rw [this, hf]
    rfl
  unfold create
  rw [hc]
  simp only [checkResults]
  rw [hmap]
  simp [isHostnameTaken]

/-- Witness for C4: creating `["x.example.com", "a.example.com",
"b.example.com"]` against `envW`'s registry (where both `a.example.com`
and `b.example.com` are taken) reports only `a.example.com`, the first
taken name. -/
theorem create_reports_first_conflict_witness :
    create envW
        { domain_names := ["x.example.com", "a.example.com", "b.example.com"]
          owner_user_id := none, certificate_id := none
          access_list_id := none, meta := none } sysW =
      (Except.error (Err.validation ("a.example.com" ++ " is already in use")),
        sysW,
        { domain_names := ["x.example.com", "a.example.com", "b.example.com"]
          owner_user_id := none, certificate_id := none
          access_list_id := none, meta := none }) :=
  create_reports_first_conflict envW
    { domain_names := ["x.example.com", "a.example.com", "b.example.com"]
      owner_user_id := none, certificate_id := none
      access_list_id := none, meta := none } sysW adAll "a.example.com"
    rfl (by decide)

/-! ### Membership helpers for the getAll query pipeline -/

theorem mem_insertRow {y r : Row} : ∀ {l : List Row},
    y ∈ insertRow r l → y = r ∨ y ∈ l := by
  intro l
  induction l with
  | nil =>
    intro h
    simp only [insertRow, List.mem_singleton] at h
    exact Or.inl h
  | cons x xs ih =>
    intro h
    simp only [insertRow] at h
    split at h
    · rcases List.mem_cons.mp h with h1 | h2
      · exact Or.inl h1
      · exact Or.inr h2
    · rcases List.mem_cons.mp h with h1 | h2
      · exact Or.inr (List.mem_cons.mpr (Or.inl h1))
      · rcases ih h2 with h3 | h4
        · exact Or.inl h3
        · exact Or.inr (List.mem_cons.mpr (Or.inr h4))

theorem mem_sortRows {y : Row} : ∀ {l : List Row}, y ∈ sortRows l → y ∈ l := by
  intro l
  induction l with
  | nil => intro h; simpa [sortRows] using h
  | cons x xs ih =>
    intro h
    simp only [sortRows] at h
    rcases mem_insertRow h with h1 | h2
    · exact h1 ▸ List.mem_cons_self x xs
    · exact List.mem_cons.mpr (Or.inr (ih h2))

theorem mem_dedupByIdAux {y : Row} : ∀ {l : List Row} {seen : List Nat},
    y ∈ dedupByIdAux seen l → y ∈ l := by
  intro l
  induction l with
  | nil => intro seen h; simpa [dedupByIdAux] using h
  | cons r rs ih =>
    intro seen h
    simp only [dedupByIdAux] at h
    split at h
    · exact List.mem_cons.mpr (Or.inr (ih h))
    · rcases List.mem_cons.mp h with h1 | h2
      · exact h1 ▸ List.mem_cons_self r rs
      · exact List.mem_cons.mpr (Or.inr (ih h2))

theorem mem_dedupById {y : Row} {l : List Row} : y ∈ dedupById l → y ∈ l :=
  mem_dedupByIdAux

/-! ### C5 -/

/-- C5: For every actor whose authorization result carries a
permission_visibility scope other than "all", every row returned by get()
or getAll(), and every row counted by getCount() (`getCount` is the length
of `getCountQuery`'s row set), has owner_user_id equal to that actor's
identity. -/
theorem visibility_scoping :
    (∀ (env : Env) (data : GetData) (s : Sys) (ad : AccessData) (row : RowOut),
       env.canGet = Except.ok ad →
       ad.permission_visibility ≠ "all" →
       get env data s = Except.ok (some row) →
       row.owner_user_id = env.actorId)
    ∧ (∀ (env : Env) (expand : Option (List String)) (q : Option String)
         (s : Sys) (ad : AccessData) (rows : List RowOut),
       env.canList = Except.ok ad →
       ad.permission_visibility ≠ "all" →
       getAll env expand q s = Except.ok rows →
       ∀ r ∈ rows, r.owner_user_id = env.actorId)
    ∧ (∀ (user_id : Nat) (visibility : String) (s : Sys),
       visibility ≠ "all" →
       getCount user_id visibility s = (getCountQuery user_id visibility s).length
         ∧ ∀ r ∈ getCountQuery user_id visibility s, r.owner_user_id = user_id) := by
  refine ⟨?_, ?_, ?_⟩
  · intro env data s ad row hc hvis hget
    simp only [get, hc] at hget
    cases hfind : s.db.find? (getMatches env ad data.id) with
    | none =>
      rw [hfind] at hget
      cases hget
    | some r =>
      simp only [hfind, Except.ok.injEq, Option.some.injEq] at hget
      have hp := List.find?_some hfind
      simp only [getMatches, Bool.and_eq_true, Bool.or_eq_true, beq_iff_eq] at hp
      rcases hp.2 with h1 | h2
      · exact absurd h1 hvis
      · rw [← hget]
        simpa [toRowOut] using h2
  · intro env expand q s ad rows hc hvis hga r hr
    simp only [getAll, hc, Except.ok.injEq] at hga
    subst hga
    rcases List.mem_map.mp hr with ⟨r0, hr0, rfl⟩
    have hr1 := mem_dedupById (mem_sortRows hr0)
    have hp := (List.mem_filter.mp hr1).2
    simp only [Bool.and_eq_true, Bool.or_eq_true, beq_iff_eq] at hp
    rcases hp.1.2 with h1 | h2
    · exact absurd h1 hvis
    · simpa [toRowOut] using h2
  · intro user_id visibility s hvis
    refine ⟨rfl, ?_⟩
    intro r hr
    have hp := (List.mem_filter.mp hr).2
    simp only [Bool.and_eq_true, Bool.or_eq_true, beq_iff_eq] at hp
    rcases hp.2 with h1 | h2
    · exact absurd h1 hvis
    · exact h2

/-- Witness for C5: under the "user"-scoped actor of `envUser` (identity
1), get() on id 5 returns row 5, whose owner is actor 1. -/
theorem visibility_scoping_witness :
    get envUser { id := some 5, expand := none, omitFields := none } sysW =
        Except.ok (some { toRowOut rowA with meta := cleanMeta envUser rowA.meta })
      ∧ ({ toRowOut rowA with
            meta := cleanMeta envUser rowA.meta } : RowOut).owner_user_id =
          envUser.actorId :=
  ⟨rfl,
    visibility_scoping.1 envUser
      { id := some 5, expand := none, omitFields := none } sysW adUser
      { toRowOut rowA with meta := cleanMeta envUser rowA.meta }
      rfl (by decide) rfl⟩

/-! ### C3 -/

/-- C3: delete() is not idempotent at the interface level: for a record
that exists, is active and is visible to the actor (and with the external
collaborators succeeding), the first delete({id}) call returns true, and a
second delete on the same id fails with ItemNotFoundError, because the
record is now soft-deleted and get() filters on is_deleted = false. -/
theorem delete_not_idempotent (env : Env) (data : DeleteData) (s : Sys)
    (ad adg : AccessData) (row : Row)
    (hcd : env.canDelete = Except.ok ad)
    (hcg : env.canGet = Except.ok adg)
    (hfind : s.db.find? (getMatches env adg (some data.id)) = some row)
    (hdc : env.deleteConfigOk = true) (hrl : env.reloadOk = true)
    (hau : env.auditOk = true) :
    ∃ s1, delete env data s = (Except.ok true, s1)
      ∧ (delete env data s1).1 = Except.error (Err.itemNotFound (some data.id)) := by
  have hrowid : row.id = data.id := by
    have hp := List.find?_some hfind
    simp only [getMatches, Bool.and_eq_true, beq_iff_eq, Option.some.injEq] at hp
    exact hp.1.2
  have hget : get env { id := some data.id, expand := none, omitFields := none } s =
      Except.ok (some { toRowOut row with meta := cleanMeta env row.meta }) := by
    simp only [get, hcg, hfind]
  refine ⟨{ db := s.db.map (fun r =>
              if r.id = ({ toRowOut row with meta := cleanMeta env row.meta } : RowOut).id
              then { r with is_deleted := true } else r),
            auditLog := s.auditLog
              ++ [{ action := "deleted", object_type := "proxy-host",
                    object_id := ({ toRowOut row with meta := cleanMeta env row.meta } : RowOut).id,
                    meta := AuditMeta.rowData
                      { ({ toRowOut row with meta := cleanMeta env row.meta } : RowOut) with
                          meta := cleanMeta env
                            ({ toRowOut row with meta := cleanMeta env row.meta } : RowOut).meta } }],
            events := s.events
              ++ [Event.deleteConfig
                    ({ toRowOut row with meta := cleanMeta env row.meta } : RowOut).id]
              ++ [Event.reload] ++ [Event.auditAdd] }, ?_, ?_⟩
  · simp only [delete, hcd, hget, auditAdd_eq, hdc, hrl, hau, if_true]
  · have hfind2 : (s.db.map (fun r =>
        if r.id = ({ toRowOut row with meta := cleanMeta env row.meta } : RowOut).id
        then { r with is_deleted := true } else r)).find?
          (getMatches env adg (some data.id)) = none := by
      rw [List.find?_eq_none]
      intro x hx
      rcases List.mem_map.mp hx with ⟨r0, hr0, rfl⟩
      by_cases h0 : r0.id = ({ toRowOut row with meta := cleanMeta env row.meta } : RowOut).id
      · simp [h0, getMatches]
      · have hne : r0.id ≠ data.id := by
          simpa [toRowOut, hrowid] using h0
        simp [h0, getMatches, hne]
    have hget2 : get env { id := some data.id, expand := none, omitFields := none }
        { db := s.db.map (fun r =>
            if r.id = ({ toRowOut row with meta := cleanMeta env row.meta } : RowOut).id
            then { r with is_deleted := true } else r)
          auditLog := s.auditLog
            ++ [{ action := "deleted", object_type := "proxy-host"
                  object_id := ({ toRowOut row with meta := cleanMeta env row.meta } : RowOut).id
                  meta := AuditMeta.rowData
                    { ({ toRowOut row with meta := cleanMeta env row.meta } : RowOut) with
                        meta := cleanMeta env
                          ({ toRowOut row with meta := cleanMeta env row.meta } : RowOut).meta } }]
          events := s.events
            ++ [Event.deleteConfig ({ toRowOut row with meta := cleanMeta env row.meta } : RowOut).id]
            ++ [Event.reload] ++ [Event.auditAdd] } =
        Except.error (Err.itemNotFound (some data.id)) := by
      simp only [get, hcg]
      rw [hfind2]
    simp only [delete, hcd, hget2]

/-- Witness for C3: deleting id 5 from `sysW` succeeds with `true`; the
immediate second delete of id 5 fails with ItemNotFoundError. -/
theorem delete_not_idempotent_witness :
    ∃ s1, delete envW { id := 5, reason := none } sysW = (Except.ok true, s1)
      ∧ (delete envW { id := 5, reason := none } s1).1 =
          Except.error (Err.itemNotFound (some 5)) :=
  delete_not_idempotent envW { id := 5, reason := none } sysW adAll adAll rowA
    rfl rfl (by decide) rfl rfl rfl

/-! ### C7 -/

/-- C7: In every delete() execution, the global serving-layer reload is
invoked only after the removal of the host's published configuration has
succeeded: whenever the run's trace contains a reload, deleteConfig
succeeded and the new external calls begin with deleteConfig immediately
followed by reload (the two calls are sequential); and if deleteConfig
fails, reload is never called. -/
theorem delete_reload_gated (env : Env) (data : DeleteData) (s : Sys) :
    ∃ tail, (delete env data s).2.events = s.events ++ tail
      ∧ (Event.reload ∈ tail →
          env.deleteConfigOk = true
            ∧ ∃ k rest, tail = Event.deleteConfig k :: Event.reload :: rest)
      ∧ (env.deleteConfigOk = false → Event.reload ∉ tail) := by
  unfold delete
  cases hcd : env.canDelete with
  | error m => exact ⟨[], by simp, by simp, by simp⟩
  | ok ad =>
    cases hget : get env { id := some data.id, expand := none, omitFields := none } s with
    | error e => exact ⟨[], by simp, by simp, by simp⟩
    | ok orow =>
      cases orow with
      | none => exact ⟨[], by simp, by simp, by simp⟩
      | some row =>
        cases hdc : env.deleteConfigOk with
        | false =>
          refine ⟨[Event.deleteConfig row.id], by simp, ?_, by simp⟩
          intro hmem
          simp at hmem
        | true =>
          cases hrl : env.reloadOk with
          | false =>
            refine ⟨[Event.deleteConfig row.id, Event.reload], by simp, ?_, by simp⟩
            intro _
            exact ⟨rfl, row.id, [], rfl⟩
          | true =>
            cases hau : env.auditOk with
            | false =>
              refine ⟨[Event.deleteConfig row.id, Event.reload, Event.auditAdd],
                by simp [auditAdd_eq, hau], ?_, by simp⟩
              intro _
              exact ⟨rfl, row.id, [Event.auditAdd], rfl⟩
            | true =>
              refine ⟨[Event.deleteConfig row.id, Event.reload, Event.auditAdd],
                by simp [auditAdd_eq, hau], ?_, by simp⟩
              intro _
              exact ⟨rfl, row.id, [Event.auditAdd], rfl⟩

/-- Witness for C7 at a concrete run: the trace of a successful delete of
id 5 appends deleteConfig 5, then reload, then the audit write. -/
theorem delete_reload_gated_witness :
    ∃ tail, (delete envW { id := 5, reason := none } sysW).2.events =
        sysW.events ++ tail
      ∧ (Event.reload ∈ tail →
          envW.deleteConfigOk = true
            ∧ ∃ k rest, tail = Event.deleteConfig k :: Event.reload :: rest)
      ∧ (envW.deleteConfigOk = false → Event.reload ∉ tail) :=
  delete_reload_gated envW { id := 5, reason := none } sysW

/-! ### Lookup laws of the lodash merge -/

theorem metaLookup_cons_eq {kv : String × String} {m : Meta} {k : String}
    (h : kv.1 = k) : metaLookup (kv :: m) k = some kv.2 := by
  simp [metaLookup, List.find?_cons, h]

theorem metaLookup_cons_ne {kv : String × String} {m : Meta} {k : String}
    (h : ¬kv.1 = k) : metaLookup (kv :: m) k = metaLookup m k := by
  simp [metaLookup, List.find?_cons, h]

theorem metaLookup_append (x y : Meta) (k : String) :
    metaLookup (x ++ y) k = (metaLookup x k).or (metaLookup y k) := by
  unfold metaLookup
  rw [List.find?_append]
  cases hx : x.find? (fun kv => kv.1 = k) <;> simp [hx]

theorem metaLookup_filterNew (l b : Meta) (k : String) :
    metaLookup (b.filter (fun kvb => (metaLookup l kvb.1).isNone)) k =
      if (metaLookup l k).isNone then metaLookup b k else none := by
  induction b with
  | nil =>
    cases hl : (metaLookup l k).isNone <;> simp [metaLookup, hl]
  | cons kvb bs ih =>
    by_cases hk : kvb.1 = k
    · cases hl : (metaLookup l k).isNone with
      | true =>
        have hkeep : (metaLookup l kvb.1).isNone = true := by rw [hk]; exact hl
        rw [List.filter_cons, if_pos (by rw [hkeep]),
          metaLookup_cons_eq hk, metaLookup_cons_eq hk, if_pos rfl]
      | false =>
        have hdrop : (metaLookup l kvb.1).isNone = false := by rw [hk]; exact hl
        rw [List.filter_cons, if_neg (by rw [hdrop]; simp), ih,
          if_neg (by simp [hl]), if_neg (by simp [hl])]
    · cases hkeep : (metaLookup l kvb.1).isNone with
      | true =>
        rw [List.filter_cons, if_pos (by rw [hkeep]),
          metaLookup_cons_ne hk, metaLookup_cons_ne hk, ih]
      | false =>
        rw [List.filter_cons, if_neg (by rw [hkeep]; simp), ih,
          metaLookup_cons_ne hk]

theorem metaLookup_mapAssign (b as : Meta) (k : String) :
    metaLookup (as.map (fun kv =>
        match metaLookup b kv.1 with
        | some v => (kv.1, v)
        | none => kv)) k =
      match metaLookup as k with
      | some v =>
        match metaLookup b k with
        | some w => some w
        | none => some v
      | none => none := by
  induction as with
  | nil => rfl
  | cons kv as ih =>
    rw [List.map_cons]
    by_cases hk : kv.1 = k
    · rw [metaLookup_cons_eq hk]
      cases hb : metaLookup b k with
      | some w =>
        have hb' : metaLookup b kv.1 = some w := by rw [hk]; exact hb
        rw [metaLookup_cons_eq (by rw [hb']; exact hk)]
        simp [hb']
      | none =>
        have hb' : metaLookup b kv.1 = none := by rw [hk]; exact hb
        rw [metaLookup_cons_eq (by rw [hb']; exact hk)]
        simp [hb']
    · have hkey : (match metaLookup b kv.1 with
          | some v => (kv.1, v)
          | none => kv).1 = kv.1 := by
        cases metaLookup b kv.1 <;> rfl
      rw [metaLookup_cons_ne (by rw [hkey]; exact hk), metaLookup_cons_ne hk, ih]

/-- The characteristic law of `_.assign({}, a, b)`: on lookup, a key
present in `b` (the later source) wins, and keys only in `a` fill the
gaps. -/
theorem metaLookup_assignMeta (a b : Meta) (k : String) :
    metaLookup (assignMeta a b) k =
      match metaLookup b k with
      | some v => some v
      | none => metaLookup a k := by
  unfold assignMeta
  rw [metaLookup_append, metaLookup_mapAssign, metaLookup_filterNew]
  cases ha : metaLookup a k <;> cases hb : metaLookup b k <;> simp [ha, hb]

/-! ### The shape of a successful create -/

/-- Helper: any successful run of create() returns a final input object
whose owner is the actor and whose meta is the lodash merge of the caller
meta (earlier source) with the re-fetched row's meta (later source), and
appends exactly one "created" audit entry carrying that final input
object. -/
theorem create_ok_spec (env : Env) (data : CreateData) (s : Sys)
    (row : RowOut) (s' : Sys) (data' : CreateData)
    (h : create env data s = (Except.ok row, s', data')) :
    data'.owner_user_id = some env.actorId
      ∧ data'.meta = some (assignMeta (data.meta.getD []) row.meta)
      ∧ s'.auditLog = s.auditLog
          ++ [{ action := "created", object_type := "proxy-host",
                object_id := row.id, meta := AuditMeta.createData data' }] := by
  unfold create at h
  split at h
  · simp at h
  · split at h
    · simp at h
    · split at h
      · simp only [] at h
        split at h
        · simp at h
        · simp at h
        · rename_i fetched
          split at h
          · rename_i a s4 heq
            rw [auditAdd_eq] at heq
            simp only [Prod.mk.injEq, Except.ok.injEq] at h
            obtain ⟨h1, h2, h3⟩ := h
            subst h1
            subst h2
            subst h3
            cases hau : env.auditOk with
            | false => rw [hau] at heq; simp at heq
            | true =>
              rw [hau] at heq
              rw [if_pos rfl] at heq
              simp only [Prod.mk.injEq] at heq
              refine ⟨rfl, rfl, ?_⟩
              rw [← heq.2]
          · rename_i e s4 heq
            simp at h
      · simp at h

/-! ### C9 -/

/-- C9: create(actor, input) mutates its caller-supplied input object: on
every successful run, after the call the input object's owner_user_id
holds the actor's identity (overwriting any caller-supplied value) and its
meta has been replaced by the merged audit meta — the returned final input
object (the caller's view through the shared reference) carries exactly
these values. -/
theorem create_mutates_input (env : Env) (data : CreateData) (s : Sys)
    (row : RowOut) (s' : Sys) (data' : CreateData)
    (h : create env data s = (Except.ok row, s', data')) :
    data'.owner_user_id = some env.actorId
      ∧ data'.meta = some (assignMeta (data.meta.getD []) row.meta) :=
  ⟨(create_ok_spec env data s row s' data' h).1,
    (create_ok_spec env data s row s' data' h).2.1⟩

/-- Witness for C9: the concrete successful run `create envW dataNew sysW`
(caller supplied no owner and meta `[("k","caller"),("extra","1")]`) ends
with the input object owned by actor 1 and carrying the merged meta. -/
theorem create_mutates_input_witness :
    (create envW dataNew sysW).2.2.owner_user_id = some envW.actorId
      ∧ (create envW dataNew sysW).2.2.meta =
          some (assignMeta (dataNew.meta.getD []) rowNew.meta) :=
  create_mutates_input envW dataNew sysW rowNew
    (create envW dataNew sysW).2.1 (create envW dataNew sysW).2.2 rfl

/-! ### C2 -/

/-- C2 (counterexample): in the run `create envW dataNew sysW`, the caller
requested meta key "k" ↦ "caller", configuration publishing annotated
"k" ↦ "pub", and the audit entry records the final input object whose
merged meta holds "k" ↦ "pub" — on a key present in both, the
publisher/row value won, not the caller-requested value as the claim
states. -/
theorem create_audit_meta_caller_loses :
    (create envW dataNew sysW).2.1.auditLog.map (fun e => e.meta) =
        [AuditMeta.createData (create envW dataNew sysW).2.2]
      ∧ metaLookup (dataNew.meta.getD []) "k" = some "caller"
      ∧ metaLookup envW.configureMeta "k" = some "pub"
      ∧ metaLookup ((create envW dataNew sysW).2.2.meta.getD []) "k" = some "pub"
      ∧ (some "pub" : Option String) ≠ some "caller" :=
  ⟨rfl, rfl, rfl, rfl, by decide⟩

/-- C2 (amended): In create(), the meta recorded in the audit entry is the
merge of the caller's requested meta with the meta of the re-fetched row
produced by configuration publishing, where on every key present in both
the row's (publisher-annotated) value wins, and caller-requested keys only
fill keys absent from the row's meta. -/
theorem create_audit_meta_row_wins (env : Env) (data : CreateData) (s : Sys)
    (row : RowOut) (s' : Sys) (data' : CreateData)
    (h : create env data s = (Except.ok row, s', data')) :
    s'.auditLog = s.auditLog
        ++ [{ action := "created", object_type := "proxy-host",
              object_id := row.id, meta := AuditMeta.createData data' }]
      ∧ ∀ k, metaLookup (data'.meta.getD []) k =
          match metaLookup row.meta k with
          | some v => some v
          | none => metaLookup (data.meta.getD []) k := by
  obtain ⟨-, h2, h3⟩ := create_ok_spec env data s row s' data' h
  refine ⟨h3, ?_⟩
  intro k
  rw [h2]
  exact metaLookup_assignMeta (data.meta.getD []) row.meta k

/-- Witness for C2's amended claim at the concrete run
`create envW dataNew sysW`. -/
theorem create_audit_meta_row_wins_witness :
    (create envW dataNew sysW).2.1.auditLog = sysW.auditLog
        ++ [{ action := "created", object_type := "proxy-host",
              object_id := rowNew.id,
              meta := AuditMeta.createData (create envW dataNew sysW).2.2 }]
      ∧ ∀ k, metaLookup ((create envW dataNew sysW).2.2.meta.getD []) k =
          match metaLookup rowNew.meta k with
          | some v => some v
          | none => metaLookup (dataNew.meta.getD []) k :=
  create_audit_meta_row_wins envW dataNew sysW rowNew
    (create envW dataNew sysW).2.1 (create envW dataNew sysW).2.2 rfl

/-! ### Order laws of the domain-name comparison -/

theorem charsLe_cons_iff {x y : Char} {xs ys : List Char} :
    charsLe (x :: xs) (y :: ys) = true ↔
      (x.toNat < y.toNat ∨ (x.toNat = y.toNat ∧ charsLe xs ys = true)) := by
  simp only [charsLe]
  by_cases h1 : x.toNat < y.toNat
  · rw [if_pos h1]
    constructor
    · intro _
      exact Or.inl h1
    · intro _
      rfl
  · rw [if_neg h1]
    by_cases h2 : y.toNat < x.toNat
    · rw [if_pos h2]
      constructor
      · intro h
        exact absurd h (by simp)
      · rintro (h | ⟨h, -⟩)
        · exact absurd h h1
        · omega
    · rw [if_neg h2]
      have he : x.toNat = y.toNat := by omega
      constructor
      · intro h
        exact Or.inr ⟨he, h⟩
      · rintro (h | ⟨-, h⟩)
        · exact absurd h h1
        · exact h

theorem charsLe_total : ∀ (a b : List Char), charsLe a b = true ∨ charsLe b a = true := by
  intro a
  induction a with
  | nil => intro b; left; rfl
  | cons x xs ih =>
    intro b
    cases b with
    | nil => right; rfl
    | cons y ys =>
      rw [charsLe_cons_iff, charsLe_cons_iff]
      rcases Nat.lt_trichotomy x.toNat y.toNat with h | h | h
      · exact Or.inl (Or.inl h)
      · rcases ih ys with h' | h'
        · exact Or.inl (Or.inr ⟨h, h'⟩)
        · exact Or.inr (Or.inr ⟨h.symm, h'⟩)
      · exact Or.inr (Or.inl h)

theorem charsLe_trans : ∀ (a b c : List Char),
    charsLe a b = true → charsLe b c = true → charsLe a c = true := by
  intro a
  induction a with
  | nil => intro b c _ _; rfl
  | cons x xs ih =>
    intro b c hab hbc
    cases b with
    | nil => simp [charsLe] at hab
    | cons y ys =>
      cases c with
      | nil => simp [charsLe] at hbc
      | cons z zs =>
        rw [charsLe_cons_iff] at hab hbc ⊢
        rcases hab with h | ⟨he1, hr1⟩
        · rcases hbc with h' | ⟨he2, -⟩
          · exact Or.inl (by omega)
          · exact Or.inl (by omega)
        · rcases hbc with h' | ⟨he2, hr2⟩
          · exact Or.inl (by omega)
          · exact Or.inr ⟨by omega, ih ys zs hr1 hr2⟩

theorem strLe_total (a b : String) : strLe a b = true ∨ strLe b a = true :=
  charsLe_total a.toList b.toList

theorem strLe_trans {a b c : String} (h1 : strLe a b = true)
    (h2 : strLe b c = true) : strLe a c = true :=
  charsLe_trans a.toList b.toList c.toList h1 h2

theorem pairwise_insertRow {r : Row} {l : List Row}
    (h : l.Pairwise (fun a b => strLe (domainKey a) (domainKey b) = true)) :
    (insertRow r l).Pairwise (fun a b => strLe (domainKey a) (domainKey b) = true) := by
  induction l with
  | nil => simp [insertRow]
  | cons x xs ih =>
    rw [List.pairwise_cons] at h
    obtain ⟨hx, hxs⟩ := h
    simp only [insertRow]
    split
    · rename_i hle
      rw [List.pairwise_cons]
      constructor
      · intro y hy
        rcases List.mem_cons.mp hy with rfl | hy'
        · exact hle
        · exact strLe_trans hle (hx y hy')
      · exact List.pairwise_cons.mpr ⟨hx, hxs⟩
    · rename_i hnle
      rw [List.pairwise_cons]
      constructor
      · intro y hy
        rcases mem_insertRow hy with rfl | hy'
        · rcases strLe_total (domainKey x) (domainKey y) with h' | h'
          · exact h'
          · exact absurd h' hnle
        · exact hx y hy'
      · exact ih hxs

theorem pairwise_sortRows : ∀ (l : List Row),
    (sortRows l).Pairwise (fun a b => strLe (domainKey a) (domainKey b) = true) := by
  intro l
  induction l with
  | nil => simp [sortRows]
  | cons x xs ih =>
    simp only [sortRows]
    exact pairwise_insertRow ih

/-! ### C6 -/

/-- C6: Every sequence returned by getAll() contains no row coming from a
soft-deleted record — each returned row originates from a database record
with is_deleted = false — and its rows are ordered by the serialized
domain_names column ascending. -/
theorem getAll_active_sorted (env : Env) (expand : Option (List String))
    (q : Option String) (s : Sys) (ad : AccessData) (rows : List RowOut)
    (hc : env.canList = Except.ok ad)
    (hga : getAll env expand q s = Except.ok rows) :
    (∀ r ∈ rows, ∃ dbr ∈ s.db, dbr.is_deleted = false ∧ r.id = dbr.id
        ∧ r.domain_names = dbr.domain_names)
      ∧ rows.Pairwise (fun a b =>
          strLe (String.intercalate "," a.domain_names)
            (String.intercalate "," b.domain_names) = true) := by
  simp only [getAll, hc, Except.ok.injEq] at hga
  subst hga
  constructor
  · intro r hr
    rcases List.mem_map.mp hr with ⟨r0, hr0, rfl⟩
    unfold getAllQuery at hr0
    have hr1 := mem_dedupById (mem_sortRows hr0)
    have hmem := (List.mem_filter.mp hr1).1
    have hp := (List.mem_filter.mp hr1).2
    simp only [Bool.and_eq_true] at hp
    refine ⟨r0, hmem, ?_, rfl, rfl⟩
    have := hp.1.1
    simpa using this
  · rw [List.pairwise_map]
    unfold getAllQuery
    exact (pairwise_sortRows _).imp (fun h => h)

/-- Witness for C6: getAll over `sysW` (rows "a.example.com" id 5,
"b.example.com" id 6 active, "c.example.com" id 7 deleted) returns the two
active rows in ascending domain order. -/
theorem getAll_active_sorted_witness :
    (∀ r ∈ [{ toRowOut rowA with meta := cleanMeta envW rowA.meta },
            { toRowOut rowB with meta := cleanMeta envW rowB.meta }],
        ∃ dbr ∈ sysW.db, dbr.is_deleted = false ∧ RowOut.id r = dbr.id
          ∧ RowOut.domain_names r = dbr.domain_names)
      ∧ List.Pairwise (fun a b =>
          strLe (String.intercalate "," (RowOut.domain_names a))
            (String.intercalate "," (RowOut.domain_names b)) = true)
          [{ toRowOut rowA with meta := cleanMeta envW rowA.meta },
           { toRowOut rowB with meta := cleanMeta envW rowB.meta }] :=
  getAll_active_sorted envW none none sysW adAll
    [{ toRowOut rowA with meta := cleanMeta envW rowA.meta },
     { toRowOut rowB with meta := cleanMeta envW rowB.meta }] rfl (by rfl)

/-! ### Error-identity helpers -/

/-- get() can only fail with a permission error or ItemNotFoundError,
never with a ValidationError. -/
theorem get_no_validation (env : Env) (data : GetData) (s : Sys) (m : String) :
    get env data s ≠ Except.error (Err.validation m) := by
  unfold get
  cases env.canGet with
  | error mm => simp
  | ok ad => cases h : s.db.find? (getMatches env ad data.id) <;> simp [h]

/-- The post-fetch continuation of update() never fails with a
ValidationError. -/
theorem updateAfterGet_no_validation (env : Env) (data : UpdateData)
    (row : RowOut) (s : Sys) (m : String) :
    (updateAfterGet env data row s).1 ≠ Except.error (Err.validation m) := by
  simp only [updateAfterGet]
  split
  · simp
  · cases hau : env.auditOk <;>
      simp only [auditAdd_eq, hau, if_true, if_false] <;>
      split <;> simp

/-! ### C1 -/

/-- C1: For every update(actor, input) call in which input.domain_names is
present, the hostname-uniqueness check performed is the same check as
create() performs, differing only in that the record identified by input.id
(the proxy record with that id) is excluded from conflict consideration:
the per-name registry lookup of update() equals create()'s lookup run
against the registry with that record removed.  In particular, a host
resubmitting names whose only active claimant is the record being updated
does not trigger a ValidationError. -/
theorem update_check_self_exclusion :
    (∀ (registry : List HostRecord) (name : String) (i : Nat),
       isHostnameTaken registry name (some "proxy") (some i) =
         isHostnameTaken
           (registry.filter (fun h => !(h.hostType == "proxy" && h.id == i)))
           name none none)
    ∧ (∀ (env : Env) (data : UpdateData) (s : Sys),
        (∀ h ∈ env.registry, h.is_deleted = false →
          (∃ n ∈ data.domain_names.getD [], h.domain_names.contains n = true) →
          h.hostType = "proxy" ∧ h.id = data.id) →
        ∀ m, (update env data s).1 ≠ Except.error (Err.validation m)) := by
  constructor
  · intro registry name i
    unfold isHostnameTaken
    simp only [CheckResult.mk.injEq, true_and]
    rw [List.any_filter]
    congr 1
    funext h
    simp only [show ((some "proxy" : Option String) == some h.hostType)
        = ("proxy" == h.hostType) from rfl,
      show ((some i : Option Nat) == some h.id) = (i == h.id) from rfl,
      show ((none : Option String) == some h.hostType) = false from rfl,
      show ((none : Option Nat) == some h.id) = false from rfl,
      Bool.false_and, Bool.not_false, Bool.and_true]
    rw [Bool.eq_iff_iff]
    simp only [Bool.and_eq_true, Bool.not_eq_true', Bool.and_eq_false_iff,
      beq_eq_false_iff_ne, beq_iff_eq, ne_eq]
    constructor
    · rintro ⟨⟨hd, hc⟩, hx⟩
      rcases hx with hx | hx
      · exact ⟨Or.inl (fun he => hx he.symm), hd, hc⟩
      · exact ⟨Or.inr (fun he => hx he.symm), hd, hc⟩
    · rintro ⟨hx, hd, hc⟩
      rcases hx with hx | hx
      · exact ⟨⟨hd, hc⟩, Or.inl (fun he => hx he.symm)⟩
      · exact ⟨⟨hd, hc⟩, Or.inr (fun he => hx he.symm)⟩
  · intro env data s hself m
    unfold update
    cases hup : env.canUpdate with
    | error mm => simp
    | ok ad =>
      simp only []
      have hchk : (match data.domain_names with
          | some names => checkResults (names.map
              (fun n => isHostnameTaken env.registry n (some "proxy") (some data.id)))
          | none => Except.ok ()) = Except.ok () := by
        cases hdn : data.domain_names with
        | none => rfl
        | some names =>
          simp only []
          unfold checkResults
          have hnone : (names.map (fun n =>
              isHostnameTaken env.registry n (some "proxy") (some data.id))).find?
                (fun r => r.is_taken) = none := by
            rw [List.find?_eq_none]
            intro res hres
            rcases List.mem_map.mp hres with ⟨n, hn, rfl⟩
            simp only [isHostnameTaken, List.any_eq_true, Bool.and_eq_true,
              Bool.not_eq_true', not_exists, not_and]
            intro h hmem hp
            obtain ⟨hd', hc⟩ := hp
            intro hex
            have hcl : h.hostType = "proxy" ∧ h.id = data.id :=
              hself h hmem hd' ⟨n, by rw [hdn]; exact hn, hc⟩
            rw [hcl.1, hcl.2] at hex
            simp at hex
          rw [hnone]
      rw [hchk]
      cases hget : get env { id := some data.id, expand := none, omitFields := none } s with
      | error e =>
        intro hcontra
        apply get_no_validation env
          { id := some data.id, expand := none, omitFields := none } s m
        rw [hget]
        simpa using hcontra
      | ok orow =>
        cases orow with
        | none => simp
        | some row => exact updateAfterGet_no_validation env data row s m

/-- Witness for C1: the concrete registry check for "a.example.com"
against proxy record 5 equals the create()-style check with record
(proxy, 5) removed, and resubmitting host 5's own name "a.example.com"
through update() does not produce the "already in use" ValidationError. -/
theorem update_check_self_exclusion_witness :
    isHostnameTaken regW "a.example.com" (some "proxy") (some 5) =
        isHostnameTaken
          (regW.filter (fun h => !(h.hostType == "proxy" && h.id == 5)))
          "a.example.com" none none
      ∧ (update envW
          { id := 5, domain_names := some ["a.example.com"]
            certificate_id := none, access_list_id := none, meta := none } sysW).1
          ≠ Except.error (Err.validation ("a.example.com" ++ " is already in use")) :=
  ⟨update_check_self_exclusion.1 regW "a.example.com" 5,
    update_check_self_exclusion.2 envW
      { id := 5, domain_names := some ["a.example.com"]
        certificate_id := none, access_list_id := none, meta := none } sysW
      (by decide) ("a.example.com" ++ " is already in use")⟩

end ProxyHost
